import Mathlib

/-!
Shallow embedding of the js-waku version-1 payload codec
(`src/lib/waku_message/version_1.ts`) and of the byte-array `concat`
helper (`src/lib/utils.ts`).

Byte arrays (`Uint8Array`) are modelled as `List Nat`; every byte stored
by the code itself is `< 256` by construction, and the places where the
source reads bytes through a `DataView` reduce the stored value mod 256,
mirroring `Uint8Array` storage semantics.  JavaScript `slice`, which
clamps negative and out-of-range indices, is modelled by `jsSlice`.
Code that throws an exception is modelled with `Except Unit`; code that
can `return undefined` is modelled with `Option`.

The crypto primitives (`keccak256`, `sign`, `secp.getPublicKey`,
`secp.recoverPublicKey`, AES-GCM `symmetric.encrypt` / `symmetric.decrypt`,
`randomBytes`) live outside the embedded sources and are passed in as
function parameters (oracles); the random padding and the random IV are
likewise explicit parameters.
-/

namespace Waku

/-- JavaScript index clamping used by `Array.prototype.slice`:
a negative index counts from the end (clamped at 0), a positive index is
clamped at the length. -/
def jsIdx (len : Nat) (i : Int) : Nat :=
  if i < 0 then ((len : Int) + i).toNat else min i.toNat len

/-- JavaScript `l.slice(s, e)` on a byte array of length `l.length`. -/
def jsSlice (l : List Nat) (s e : Int) : List Nat :=
  (l.take (jsIdx l.length e)).drop (jsIdx l.length s)

/-- Little-endian 4-byte encoding of a natural number, as written by
`DataView.setUint32(0, n, true)` (the value is taken mod 2^32, which the
byte extraction below performs implicitly for the low 4 bytes). -/
def toLE4 (n : Nat) : List Nat :=
  [n % 256, n / 256 % 256, n / 65536 % 256, n / 16777216 % 256]

/-- Signed little-endian 32-bit read, as performed by
`DataView.getInt32(0, true)` on a 4-byte buffer.  Entries are reduced
mod 256 because a real `Uint8Array` stores bytes. -/
def toInt32LE (b : List Nat) : Int :=
  let u := b.getD 0 0 % 256 + 256 * (b.getD 1 0 % 256) + 65536 * (b.getD 2 0 % 256) +
    16777216 * (b.getD 3 0 % 256)
  if u < 2147483648 then (u : Int) else (u : Int) - 4294967296

/-! ## utils.ts: concat -/

/-- `res.set(bytes, offset)`: writes `src` into `dst` at `off`;
throws (`none`) when the write would run past the end of `dst`. -/
def writeAt (dst : List Nat) (off : Nat) (src : List Nat) : Option (List Nat) :=
  if off + src.length ≤ dst.length then
    some (dst.take off ++ src ++ dst.drop (off + src.length))
  else none

/-- The `for (const bytes of byteArrays)` loop of `concat`. -/
def concatLoop : List (List Nat) → List Nat → Nat → Option (List Nat)
  | [], res, _ => some res
  | bytes :: rest, res, off =>
    match writeAt res off bytes with
    | some r => concatLoop rest r (off + bytes.length)
    | none => none

/-- `concat(byteArrays, totalLength?)` from `src/lib/utils.ts`:
allocates a zero-filled array of the requested length (defaulting to the
sum of the input lengths) and copies the inputs in at increasing
offsets. -/
def concat (byteArrays : List (List Nat)) (totalLength : Option Nat) : Option (List Nat) :=
  let len := totalLength.getD (byteArrays.foldl (fun acc curr => acc + curr.length) 0)
  concatLoop byteArrays (List.replicate len 0) 0

/-! ## version_1.ts: constants -/

def FlagsLength : Nat := 1
def FlagMask : Nat := 3
def IsSignedMask : Nat := 4
def PaddingTarget : Nat := 256
def SignatureLength : Nat := 65

/-- Modelled from the spec: `symmetric.IvSize` (the symmetric module is
not among the provided sources); the spec fixes the AES-GCM IV at 12
bytes. -/
def IvSize : Nat := 12

/-! ## version_1.ts: size field -/

/-- The loop of `computeSizeOfPayloadSizeField`:
`for (let i = payload.length; i >= 256; i /= 256) s++`.  JavaScript
divides floats, but dividing by 256 is exact, and comparing the exact
quotient with 256 agrees with comparing the floor quotient, so natural
floor division is a faithful model. -/
def sizeFieldCount (i : Nat) : Nat :=
  if 256 ≤ i then sizeFieldCount (i / 256) + 1 else 0
termination_by i
decreasing_by
  exact Nat.div_lt_self (by omega) (by norm_num)

/-- `computeSizeOfPayloadSizeField(payload)` (the source only uses
`payload.length`, which is the argument here). -/
def computeSizeOfPayloadSizeField (payloadLen : Nat) : Nat :=
  1 + sizeFieldCount payloadLen

/-- `validateDataIntegrity(value, expectedSize)`. -/
def validateDataIntegrity (value : List Nat) (expectedSize : Nat) : Bool :=
  if value.length ≠ expectedSize then false
  else decide (expectedSize ≤ 3) || value.any (fun i => i != 0)

/-- `addPayloadSizeField(msg, payload)`: appends the truncated
little-endian payload length and ORs the field size into byte 0. -/
def addPayloadSizeField (msg payload : List Nat) : List Nat :=
  let fieldSize := computeSizeOfPayloadSizeField payload.length
  let field := (toLE4 payload.length).take fieldSize
  match msg ++ field with
  | [] => []
  | b :: rest => (b ||| fieldSize) :: rest

/-- The `rawSize`/`paddingSize` computation inlined in `clearEncode`. -/
def paddingSizeOf (payloadLen : Nat) (signed : Bool) : Nat :=
  let rawSize := FlagsLength + computeSizeOfPayloadSizeField payloadLen + payloadLen +
    (if signed then SignatureLength else 0)
  PaddingTarget - rawSize % PaddingTarget

/-! ## version_1.ts: clearEncode / clearDecode -/

/-- The `Signature` record returned by `clearEncode` and embedded in
decode results. -/
structure Signature where
  signature : List Nat
  publicKey : Option (List Nat)
deriving DecidableEq

/-- Result record of `clearDecode`. -/
structure DecodedMsg where
  payload : List Nat
  sig : Option Signature
deriving DecidableEq

/-- `clearEncode(messagePayload, sigPrivKey?)`.  `keccak`, `sign` and
`getPublicKey` are the crypto primitives; `pad` is the output of
`randomBytes(paddingSize)`.  The `throw` on failed padding validation is
modelled by `none`. -/
def clearEncode (keccak : List Nat → List Nat) (sign : List Nat → List Nat → List Nat)
    (getPublicKey : List Nat → List Nat) (pad : List Nat)
    (messagePayload : List Nat) (sigPrivKey : Option (List Nat)) :
    Option (List Nat × Option Signature) :=
  let envelope := addPayloadSizeField [0] messagePayload ++ messagePayload
  let paddingSize := paddingSizeOf messagePayload.length sigPrivKey.isSome
  if validateDataIntegrity pad paddingSize then
    let envelope := envelope ++ pad
    match sigPrivKey with
    | none => some (envelope, none)
    | some priv =>
      let envelope := match envelope with
        | [] => []
        | b :: rest => (b ||| IsSignedMask) :: rest
      let hash := keccak envelope
      let bytesSignature := sign hash priv
      some (envelope ++ bytesSignature, some ⟨bytesSignature, some (getPublicKey priv)⟩)
  else none

/-- `getPayloadSize(message, sizeOfPayloadSizeField)`: reads the size
field, zero-extends it to 4 bytes (via `concat` with `totalLength 4`)
and reinterprets it as a signed little-endian 32-bit integer. -/
def getPayloadSize (message : List Nat) (sizeOfPayloadSizeField : Nat) : Int :=
  let payloadSizeBytes := (message.drop 1).take sizeOfPayloadSizeField
  let bytes4 := if sizeOfPayloadSizeField < 4 then
      payloadSizeBytes ++ List.replicate (4 - payloadSizeBytes.length) 0
    else payloadSizeBytes
  toInt32LE bytes4

/-- `getSignature(message)`: the last 65 bytes (clamped by `slice`). -/
def getSignature (message : List Nat) : List Nat :=
  jsSlice message ((message.length : Int) - (SignatureLength : Int)) (message.length : Int)

/-- `clearDecode(message)`.  `recover` models
`secp.Signature.fromCompact` plus `secp.recoverPublicKey` (absent from
the sources); per the source's type it returns the recovered key or
`none`.  `Except.error` models a thrown exception: reading byte 0 of an
empty message, or reading the recovery byte when fewer than 65 bytes are
available for the signature. -/
def clearDecode (keccak : List Nat → List Nat)
    (recover : List Nat → List Nat → Nat → Option (List Nat))
    (message : List Nat) : Except Unit (Option DecodedMsg) :=
  match message with
  | [] => Except.error ()
  | b :: _ =>
    let sizeOfPayloadSizeField := b &&& FlagMask
    if sizeOfPayloadSizeField = 0 then Except.ok none
    else
      let payloadSize := getPayloadSize message sizeOfPayloadSizeField
      let payloadStart : Int := 1 + (sizeOfPayloadSizeField : Int)
      let payload := jsSlice message payloadStart (payloadStart + payloadSize)
      if b &&& IsSignedMask = IsSignedMask then
        let signature := getSignature message
        let hash := keccak (jsSlice message 0 ((message.length : Int) - (SignatureLength : Int)))
        match signature.drop 64 with
        | [] => Except.error ()
        | r :: _ =>
          Except.ok (some ⟨payload, some ⟨signature, recover hash (signature.take 64) (r % 256)⟩⟩)
      else Except.ok (some ⟨payload, none⟩)

/-! ## version_1.ts: symmetric wrappers -/

/-- `encryptSymmetric(data, key)`: `encrypt` models the AES-GCM
primitive `symmetric.encrypt(iv, key, data)` returning `cipher ‖ tag`;
`iv` is the output of `symmetric.generateIv()`. -/
def encryptSymmetric (encrypt : List Nat → List Nat → List Nat → List Nat)
    (iv key data : List Nat) : List Nat :=
  encrypt iv key data ++ iv

/-- `decryptSymmetric(payload, key)`: splits the IV off the end and
hands `(iv, key, cipher)` to the AES-GCM primitive `decrypt` (which
fails with `none` on an authentication error). -/
def decryptSymmetric (decrypt : List Nat → List Nat → List Nat → Option (List Nat))
    (key payload : List Nat) : Option (List Nat) :=
  let ivStart : Int := (payload.length : Int) - (IvSize : Int)
  decrypt (jsSlice payload ivStart (payload.length : Int)) key (jsSlice payload 0 ivStart)

/-! ## Size-field lemmas -/

theorem sizeFieldCount_of_lt {i : Nat} (h : i < 256) : sizeFieldCount i = 0 := by
  unfold sizeFieldCount
  rw [if_neg (by omega)]

theorem sizeFieldCount_of_le {i : Nat} (h : 256 ≤ i) :
    sizeFieldCount i = sizeFieldCount (i / 256) + 1 := by
  conv_lhs => unfold sizeFieldCount
  rw [if_pos h]

/-- C5: the size-field length is 1 for payloads shorter than 256 bytes,
2 below 65536, 3 below 16777216 and 4 for all longer payloads
(payload lengths are below 2^32, the source's `Uint8Array`/`setUint32`
range). -/
theorem computeSizeOfPayloadSizeField_spec (len : Nat) (hlen : len < 4294967296) :
    (len < 256 → computeSizeOfPayloadSizeField len = 1) ∧
    (256 ≤ len → len < 65536 → computeSizeOfPayloadSizeField len = 2) ∧
    (65536 ≤ len → len < 16777216 → computeSizeOfPayloadSizeField len = 3) ∧
    (16777216 ≤ len → computeSizeOfPayloadSizeField len = 4) := by
  unfold computeSizeOfPayloadSizeField
  refine ⟨fun h1 => ?_, fun h2 h2' => ?_, fun h3 h3' => ?_, fun h4 => ?_⟩
  · rw [sizeFieldCount_of_lt h1]
  · rw [sizeFieldCount_of_le h2, sizeFieldCount_of_lt (by omega)]
  · rw [sizeFieldCount_of_le (by omega), sizeFieldCount_of_le (by omega),
      sizeFieldCount_of_lt (by omega)]
  · rw [sizeFieldCount_of_le (by omega), sizeFieldCount_of_le (by omega),
      sizeFieldCount_of_le (by omega), sizeFieldCount_of_lt (by omega)]

/-- Witness for C5 at the boundary payload length 65536. -/
theorem computeSizeOfPayloadSizeField_spec_witness :
    (65536 : Nat) < 4294967296 ∧
      (65536 ≤ 65536 → 65536 < 16777216 → computeSizeOfPayloadSizeField 65536 = 3) :=
  ⟨by norm_num, (computeSizeOfPayloadSizeField_spec 65536 (by norm_num)).2.2.1⟩

/-! ## concat lemmas -/

theorem concat_foldl_length (byteArrays : List (List Nat)) (a : Nat) :
    byteArrays.foldl (fun acc curr => acc + curr.length) a =
      a + (byteArrays.map List.length).sum := by
  induction byteArrays generalizing a with
  | nil => simp
  | cons b rest ih => simp [ih, Nat.add_assoc]

theorem concatLoop_spec (arrays : List (List Nat)) (acc : List Nat) (m : Nat)
    (h : (arrays.map List.length).sum ≤ m) :
    concatLoop arrays (acc ++ List.replicate m 0) acc.length =
      some (acc ++ arrays.flatten ++ List.replicate (m - (arrays.map List.length).sum) 0) := by
  induction arrays generalizing acc m with
  | nil => simp [concatLoop]
  | cons b rest ih =>
    have hb : b.length ≤ m := by simp at h; omega
    have hcond : acc.length + b.length ≤ (acc ++ List.replicate m 0).length := by
      simp; omega
    have hwrite : writeAt (acc ++ List.replicate m 0) acc.length b =
        some ((acc ++ b) ++ List.replicate (m - b.length) 0) := by
      rw [writeAt, if_pos hcond, List.take_left, ← List.drop_drop, List.drop_left,
        List.drop_replicate, List.append_assoc]
    have hrest : (rest.map List.length).sum ≤ m - b.length := by simp at h; omega
    have hih := ih (acc ++ b) (m - b.length) hrest
    rw [concatLoop, hwrite]
    show concatLoop rest (acc ++ b ++ List.replicate (m - b.length) 0) (acc.length + b.length) = _
    rw [← List.length_append, hih]
    have hsub : m - b.length - (rest.map List.length).sum =
        m - (List.map List.length (b :: rest)).sum := by simp; omega
    rw [hsub]
    simp [List.append_assoc]

/-- C10: `concat` without a total length returns the inputs laid out
consecutively (so its length is the sum of the input lengths), and with
a larger total length it zero-fills the tail up to exactly that
length. -/
theorem concat_spec (arrays : List (List Nat)) :
    (concat arrays none = some arrays.flatten ∧
      arrays.flatten.length = (arrays.map List.length).sum) ∧
    ∀ total, (arrays.map List.length).sum ≤ total →
      concat arrays (some total) =
        some (arrays.flatten ++ List.replicate (total - (arrays.map List.length).sum) 0) ∧
      (arrays.flatten ++ List.replicate (total - (arrays.map List.length).sum) 0).length =
        total := by
  refine ⟨⟨?_, by simp⟩, fun total htot => ⟨?_, by simp; omega⟩⟩
  · have := concatLoop_spec arrays [] ((arrays.map List.length).sum) le_rfl
    simpa [concat, concat_foldl_length] using this
  · have := concatLoop_spec arrays [] total htot
    simpa [concat] using this

/-- Witness for C10 on `[[1,2],[3]]` with total length 5. -/
theorem concat_spec_witness :
    (([[1,2],[3]] : List (List Nat)).map List.length).sum ≤ 5 ∧
      (concat [[1,2],[3]] (some 5) =
        some (([[1,2],[3]] : List (List Nat)).flatten ++
          List.replicate (5 - (([[1,2],[3]] : List (List Nat)).map List.length).sum) 0) ∧
      (([[1,2],[3]] : List (List Nat)).flatten ++
          List.replicate (5 - (([[1,2],[3]] : List (List Nat)).map List.length).sum) 0).length =
        5) :=
  ⟨by decide, (concat_spec [[1,2],[3]]).2 5 (by decide)⟩

/-! ## jsSlice lemmas -/

theorem jsIdx_coe (len n : Nat) : jsIdx len (n : Int) = min n len := by
  unfold jsIdx
  rw [if_neg (by omega)]
  omega

theorem jsIdx_coe_of_le (len n : Nat) (h : n ≤ len) : jsIdx len (n : Int) = n := by
  rw [jsIdx_coe]; omega

theorem jsIdx_sub_of_le (len k : Nat) (h : k ≤ len) :
    jsIdx len ((len : Int) - (k : Int)) = len - k := by
  unfold jsIdx
  rw [if_neg (by omega)]
  omega

theorem jsIdx_sub_of_lt (len k : Nat) (h : len < k) :
    jsIdx len ((len : Int) - (k : Int)) = 2 * len - k := by
  unfold jsIdx
  rw [if_pos (by omega)]
  omega

/-! ## Symmetric wrappers: C3 and C9 -/

/-- C3: the symmetric blob is `cipher ‖ tag ‖ iv` with the 12-byte IV
last and the 16-byte GCM tag before it, `decryptSymmetric` splits the
last 12 bytes off as the IV, and decrypting an `encryptSymmetric` output
under the same key returns the original data (given an AES-GCM primitive
pair that round-trips and appends a 16-byte tag). -/
theorem symmetric_roundtrip (encrypt : List Nat → List Nat → List Nat → List Nat)
    (decrypt : List Nat → List Nat → List Nat → Option (List Nat)) (key data iv : List Nat)
    (hiv : iv.length = 12)
    (hlen : (encrypt iv key data).length = data.length + 16)
    (hdec : decrypt iv key (encrypt iv key data) = some data) :
    decryptSymmetric decrypt key (encryptSymmetric encrypt iv key data) = some data ∧
    encryptSymmetric encrypt iv key data = encrypt iv key data ++ iv ∧
    (encryptSymmetric encrypt iv key data).drop
      ((encryptSymmetric encrypt iv key data).length - 12) = iv ∧
    (encryptSymmetric encrypt iv key data).take
      ((encryptSymmetric encrypt iv key data).length - 12) = encrypt iv key data ∧
    ((encrypt iv key data).drop data.length).length = 16 := by
  have henc : encryptSymmetric encrypt iv key data = encrypt iv key data ++ iv := rfl
  have hL : (encrypt iv key data ++ iv).length = (encrypt iv key data).length + 12 := by
    simp [hiv]
  have hsub : (encrypt iv key data ++ iv).length - 12 = (encrypt iv key data).length := by
    omega
  have h1 : jsIdx (encrypt iv key data ++ iv).length
      (((encrypt iv key data ++ iv).length : Int) - ((IvSize : Nat) : Int)) =
      (encrypt iv key data).length := by
    unfold jsIdx IvSize
    split <;> omega
  have h2 : jsIdx (encrypt iv key data ++ iv).length
      ((encrypt iv key data ++ iv).length : Int) = (encrypt iv key data ++ iv).length := by
    unfold jsIdx
    split <;> omega
  have h3 : jsIdx (encrypt iv key data ++ iv).length (0 : Int) = 0 := by
    unfold jsIdx
    split <;> omega
  refine ⟨?_, henc, ?_, ?_, ?_⟩
  · simp only [decryptSymmetric, jsSlice]
    rw [henc, h1, h2, h3, List.take_length, List.drop_zero, List.drop_left, List.take_left]
    exact hdec
  · rw [henc, hsub, List.drop_left]
  · rw [henc, hsub, List.take_left]
  · rw [List.length_drop]
    omega

/-- Witness for C3 with a one-byte plaintext and a toy tag-appending
primitive pair. -/
theorem symmetric_roundtrip_witness :
    (List.replicate 12 3 : List Nat).length = 12 ∧
      ((fun (_ : List Nat) (_ : List Nat) (d : List Nat) =>
          d ++ List.replicate 16 0) (List.replicate 12 3) [9] [5]).length = [5].length + 16 ∧
      ((fun (_ : List Nat) (_ : List Nat) (c : List Nat) =>
          some (c.take (c.length - 16))) (List.replicate 12 3) [9]
        ((fun (_ : List Nat) (_ : List Nat) (d : List Nat) =>
          d ++ List.replicate 16 0) (List.replicate 12 3) [9] [5])) = some [5] ∧
      decryptSymmetric
        (fun (_ : List Nat) (_ : List Nat) (c : List Nat) => some (c.take (c.length - 16))) [9]
        (encryptSymmetric
          (fun (_ : List Nat) (_ : List Nat) (d : List Nat) => d ++ List.replicate 16 0)
          (List.replicate 12 3) [9] [5]) = some [5] := by
  refine ⟨by decide, by decide, by decide, ?_⟩
  exact (symmetric_roundtrip
    (fun _ _ d => d ++ List.replicate 16 0)
    (fun _ _ c => some (c.take (c.length - 16)))
    [9] [5] (List.replicate 12 3) (by decide) (by decide) (by decide)).1

/-- C9: on inputs shorter than the 12-byte IV size, `decryptSymmetric`
performs no length check: it still slices using `payload.length - 12`
(which JavaScript `slice` clamps) and passes the resulting IV and
ciphertext straight to the AES-GCM primitive. -/
theorem decryptSymmetric_short (decrypt : List Nat → List Nat → List Nat → Option (List Nat))
    (key payload : List Nat) (h : payload.length < 12) :
    decryptSymmetric decrypt key payload =
      decrypt (payload.drop (2 * payload.length - 12)) key
        (payload.take (2 * payload.length - 12)) := by
  have h1 : jsIdx payload.length ((payload.length : Int) - ((IvSize : Nat) : Int)) =
      2 * payload.length - 12 := by
    unfold jsIdx IvSize
    split <;> omega
  have h2 : jsIdx payload.length (payload.length : Int) = payload.length := by
    unfold jsIdx
    split <;> omega
  have h3 : jsIdx payload.length (0 : Int) = 0 := by
    unfold jsIdx
    split <;> omega
  simp only [decryptSymmetric, jsSlice]
  rw [h1, h2, h3, List.take_length, List.drop_zero]

/-- Witness for C9 on a 3-byte input: the whole input is taken as the
IV and the ciphertext is empty. -/
theorem decryptSymmetric_short_witness :
    ([1, 2, 3] : List Nat).length < 12 ∧
      decryptSymmetric (fun iv _ c => some (iv ++ [99] ++ c)) [] [1, 2, 3] =
        (fun (iv : List Nat) (_ : List Nat) (c : List Nat) => some (iv ++ [99] ++ c))
          (([1, 2, 3] : List Nat).drop (2 * ([1, 2, 3] : List Nat).length - 12)) []
          (([1, 2, 3] : List Nat).take (2 * ([1, 2, 3] : List Nat).length - 12)) :=
  ⟨by decide, decryptSymmetric_short (fun iv _ c => some (iv ++ [99] ++ c)) [] [1, 2, 3]
    (by decide)⟩

/-! ## Padding validation: C8 -/

theorem validateDataIntegrity_eq_true_iff (v : List Nat) (n : Nat) :
    validateDataIntegrity v n = true ↔ (v.length = n ∧ (n ≤ 3 ∨ ∃ b ∈ v, b ≠ 0)) := by
  unfold validateDataIntegrity
  split
  · rename_i h
    simp only [Bool.false_eq_true, false_iff]
    tauto
  · rename_i h
    rw [not_not] at h
    simp [h, List.any_eq_true]

/-- C8: `clearEncode` fails (throws `PaddingGenerationFailed`) exactly
when the supplied padding has the wrong length, or the padding size
exceeds 3 and every padding byte is zero; for padding sizes of at most 3
any correctly sized padding is accepted. -/
theorem clearEncode_none_iff (keccak : List Nat → List Nat)
    (sign : List Nat → List Nat → List Nat) (getPublicKey : List Nat → List Nat)
    (pad payload : List Nat) (sigPrivKey : Option (List Nat)) :
    clearEncode keccak sign getPublicKey pad payload sigPrivKey = none ↔
      (pad.length ≠ paddingSizeOf payload.length sigPrivKey.isSome ∨
        (3 < paddingSizeOf payload.length sigPrivKey.isSome ∧ ∀ b ∈ pad, b = 0)) := by
  unfold clearEncode
  cases hv : validateDataIntegrity pad (paddingSizeOf payload.length sigPrivKey.isSome)
  · have hv' : ¬(pad.length = paddingSizeOf payload.length sigPrivKey.isSome ∧
        (paddingSizeOf payload.length sigPrivKey.isSome ≤ 3 ∨ ∃ b ∈ pad, b ≠ 0)) := by
      rw [← validateDataIntegrity_eq_true_iff]
      simp [hv]
    push_neg at hv'
    simp only [hv, Bool.false_eq_true, if_false, true_iff]
    by_cases hA : pad.length = paddingSizeOf payload.length sigPrivKey.isSome
    · exact Or.inr (hv' hA)
    · exact Or.inl hA
  · have hv0 := hv
    rw [validateDataIntegrity_eq_true_iff] at hv
    obtain ⟨hA, hBC⟩ := hv
    have hne : ¬(pad.length ≠ paddingSizeOf payload.length sigPrivKey.isSome ∨
        (3 < paddingSizeOf payload.length sigPrivKey.isSome ∧ ∀ b ∈ pad, b = 0)) := by
      rintro (hcontra | ⟨h3, hz⟩)
      · exact hcontra hA
      · rcases hBC with hb | ⟨b, hbmem, hbne⟩
        · omega
        · exact hbne (hz b hbmem)
    cases sigPrivKey <;> simp only [Option.isSome_none, Option.isSome_some] at hv0 hne <;>
      simp [hv0, hne]

/-! ## clearEncode characterization -/

theorem addPayloadSizeField_zero (payload : List Nat) :
    addPayloadSizeField [0] payload =
      computeSizeOfPayloadSizeField payload.length ::
        (toLE4 payload.length).take (computeSizeOfPayloadSizeField payload.length) := by
  simp only [addPayloadSizeField, List.cons_append, List.nil_append, Nat.zero_or]

/-- The envelope built by an unsigned `clearEncode` run. -/
def envelopeUnsigned (payload pad : List Nat) : List Nat :=
  computeSizeOfPayloadSizeField payload.length ::
    ((toLE4 payload.length).take (computeSizeOfPayloadSizeField payload.length) ++
      (payload ++ pad))

/-- The envelope built by a signed `clearEncode` run, before the
signature is appended. -/
def envelopeSigned (payload pad : List Nat) : List Nat :=
  (computeSizeOfPayloadSizeField payload.length ||| IsSignedMask) ::
    ((toLE4 payload.length).take (computeSizeOfPayloadSizeField payload.length) ++
      (payload ++ pad))

theorem clearEncode_unsigned_eq (keccak : List Nat → List Nat)
    (sign : List Nat → List Nat → List Nat) (getPublicKey : List Nat → List Nat)
    (pad payload : List Nat)
    (hvalid : validateDataIntegrity pad (paddingSizeOf payload.length false) = true) :
    clearEncode keccak sign getPublicKey pad payload none =
      some (envelopeUnsigned payload pad, none) := by
  simp only [clearEncode, Option.isSome_none, hvalid, if_true, addPayloadSizeField_zero,
    envelopeUnsigned, List.cons_append, List.append_assoc]

theorem clearEncode_signed_eq (keccak : List Nat → List Nat)
    (sign : List Nat → List Nat → List Nat) (getPublicKey : List Nat → List Nat)
    (pad payload priv : List Nat)
    (hvalid : validateDataIntegrity pad (paddingSizeOf payload.length true) = true) :
    clearEncode keccak sign getPublicKey pad payload (some priv) =
      some (envelopeSigned payload pad ++ sign (keccak (envelopeSigned payload pad)) priv,
        some ⟨sign (keccak (envelopeSigned payload pad)) priv, some (getPublicKey priv)⟩) := by
  simp only [clearEncode, Option.isSome_some, hvalid, if_true, addPayloadSizeField_zero,
    envelopeSigned, List.cons_append, List.append_assoc]

/-! ## clearDecode structured lemmas -/

theorem flag_and_mask (f : Nat) (h3 : f ≤ 3) :
    f &&& FlagMask = f ∧ (f ||| IsSignedMask) &&& FlagMask = f ∧
      f &&& IsSignedMask = 0 ∧ (f ||| IsSignedMask) &&& IsSignedMask = IsSignedMask := by
  interval_cases f <;> decide

theorem getPayloadSize_structured (b f : Nat) (field tail : List Nat)
    (hflen : field.length = f) (hf4 : f < 4) :
    getPayloadSize (b :: (field ++ tail)) f =
      toInt32LE (field ++ List.replicate (4 - f) 0) := by
  simp only [getPayloadSize]
  rw [List.drop_succ_cons, List.drop_zero, List.take_left' hflen, hflen, if_pos hf4]

theorem toInt32LE_sizeField (len f : Nat) (hf1 : 1 ≤ f) (hf3 : f ≤ 3)
    (hlt : len < 256 ^ f) :
    toInt32LE ((toLE4 len).take f ++ List.replicate (4 - f) 0) = (len : Int) := by
  interval_cases f
  · have h4 : (toLE4 len).take 1 ++ List.replicate 3 0 = [len % 256, 0, 0, 0] := rfl
    rw [h4]
    simp only [toInt32LE, List.getD]
    norm_num at hlt ⊢
    split <;> omega
  · have h4 : (toLE4 len).take 2 ++ List.replicate 2 0 =
      [len % 256, len / 256 % 256, 0, 0] := rfl
    rw [h4]
    simp only [toInt32LE, List.getD]
    norm_num at hlt ⊢
    split <;> omega
  · have h4 : (toLE4 len).take 3 ++ List.replicate 1 0 =
      [len % 256, len / 256 % 256, len / 65536 % 256, 0] := rfl
    rw [h4]
    simp only [toInt32LE, List.getD]
    norm_num at hlt ⊢
    split <;> omega

theorem jsSlice_mid (b : Nat) (field payload rest : List Nat) :
    jsSlice (b :: (field ++ (payload ++ rest))) (1 + (field.length : Int))
      (1 + (field.length : Int) + (payload.length : Int)) = payload := by
  have hL : (b :: (field ++ (payload ++ rest))).length =
      1 + field.length + payload.length + rest.length := by
    simp
    omega
  unfold jsSlice
  have he : jsIdx (b :: (field ++ (payload ++ rest))).length
      (1 + (field.length : Int) + (payload.length : Int)) =
      1 + field.length + payload.length := by
    unfold jsIdx
    split <;> omega
  have hs : jsIdx (b :: (field ++ (payload ++ rest))).length (1 + (field.length : Int)) =
      1 + field.length := by
    unfold jsIdx
    split <;> omega
  rw [he, hs, List.drop_take]
  have h1 : 1 + field.length = field.length + 1 := by omega
  have h2 : 1 + field.length + payload.length - (1 + field.length) = payload.length := by
    omega
  rw [h2, h1, List.drop_succ_cons, List.drop_left' rfl, List.take_left' rfl]

theorem getSignature_eq (message : List Nat) (h : 65 ≤ message.length) :
    getSignature message = message.drop (message.length - 65) := by
  unfold getSignature jsSlice
  have h1 : jsIdx message.length (message.length : Int) = message.length := by
    unfold jsIdx
    split <;> omega
  have h2 : jsIdx message.length
      ((message.length : Int) - ((SignatureLength : Nat) : Int)) = message.length - 65 := by
    unfold jsIdx SignatureLength
    split <;> omega
  rw [h1, h2, List.take_length]

theorem jsSlice_hash_prefix (message : List Nat) (h : 65 ≤ message.length) :
    jsSlice message 0 ((message.length : Int) - ((SignatureLength : Nat) : Int)) =
      message.take (message.length - 65) := by
  unfold jsSlice
  have h1 : jsIdx message.length
      ((message.length : Int) - ((SignatureLength : Nat) : Int)) = message.length - 65 := by
    unfold jsIdx SignatureLength
    split <;> omega
  have h2 : jsIdx message.length (0 : Int) = 0 := by
    unfold jsIdx
    split <;> omega
  rw [h1, h2, List.drop_zero]

/-- Decoding a message of the shape `flags ‖ size-field ‖ payload ‖ rest`
recovers the payload; the signed branch also returns the trailing 65
bytes as the signature together with whatever the recovery primitive
yields on the digest of everything but those 65 bytes. -/
theorem clearDecode_structured (keccak : List Nat → List Nat)
    (recover : List Nat → List Nat → Nat → Option (List Nat))
    (b f : Nat) (field payload rest msg : List Nat)
    (hmsg : msg = b :: (field ++ (payload ++ rest)))
    (hb3 : b &&& FlagMask = f) (hf1 : 1 ≤ f) (hf3 : f ≤ 3)
    (hflen : field.length = f)
    (hsize : toInt32LE (field ++ List.replicate (4 - f) 0) = (payload.length : Int)) :
    (b &&& IsSignedMask ≠ IsSignedMask →
      clearDecode keccak recover msg = Except.ok (some ⟨payload, none⟩)) ∧
    (b &&& IsSignedMask = IsSignedMask → 65 ≤ msg.length →
      clearDecode keccak recover msg = Except.ok (some ⟨payload,
        some ⟨msg.drop (msg.length - 65),
          recover (keccak (msg.take (msg.length - 65)))
            ((msg.drop (msg.length - 65)).take 64)
            (((msg.drop (msg.length - 65)).drop 64).headD 0 % 256)⟩⟩)) := by
  subst hmsg
  have hmid := jsSlice_mid b field payload rest
  rw [hflen] at hmid
  constructor
  · intro hns
    simp only [clearDecode]
    rw [hb3, if_neg (show ¬(f = 0) by omega),
      getPayloadSize_structured b f field (payload ++ rest) hflen (by omega), hsize, hmid,
      if_neg hns]
  · intro hsg hlen
    simp only [clearDecode]
    rw [hb3, if_neg (show ¬(f = 0) by omega),
      getPayloadSize_structured b f field (payload ++ rest) hflen (by omega), hsize, hmid,
      if_pos hsg, getSignature_eq _ hlen, jsSlice_hash_prefix _ hlen]
    have hdrop : (((b :: (field ++ (payload ++ rest))).drop
        ((b :: (field ++ (payload ++ rest))).length - 65)).drop 64).length = 1 := by
      rw [List.length_drop, List.length_drop]
      omega
    obtain ⟨x, hx⟩ := List.length_eq_one.mp hdrop
    rw [hx]
    simp [List.headD_cons]

/-! ## Bounds for the size field and padding -/

theorem computeSize_pos (len : Nat) : 1 ≤ computeSizeOfPayloadSizeField len := by
  unfold computeSizeOfPayloadSizeField
  omega

theorem computeSize_cases (len : Nat) (h : len < 16777216) :
    (len < 256 ∧ computeSizeOfPayloadSizeField len = 1) ∨
    (256 ≤ len ∧ len < 65536 ∧ computeSizeOfPayloadSizeField len = 2) ∨
    (65536 ≤ len ∧ computeSizeOfPayloadSizeField len = 3) := by
  unfold computeSizeOfPayloadSizeField
  by_cases h1 : len < 256
  · exact Or.inl ⟨h1, by rw [sizeFieldCount_of_lt h1]⟩
  · by_cases h2 : len < 65536
    · refine Or.inr (Or.inl ⟨by omega, h2, ?_⟩)
      rw [sizeFieldCount_of_le (by omega), sizeFieldCount_of_lt (by omega)]
    · refine Or.inr (Or.inr ⟨by omega, ?_⟩)
      rw [sizeFieldCount_of_le (by omega), sizeFieldCount_of_le (by omega),
        sizeFieldCount_of_lt (by omega)]

theorem computeSize_le_three (len : Nat) (h : len < 16777216) :
    computeSizeOfPayloadSizeField len ≤ 3 := by
  rcases computeSize_cases len h with ⟨_, h1⟩ | ⟨_, _, h2⟩ | ⟨_, h3⟩ <;> omega

theorem len_lt_pow_computeSize (len : Nat) (h : len < 16777216) :
    len < 256 ^ computeSizeOfPayloadSizeField len := by
  rcases computeSize_cases len h with ⟨hb, h1⟩ | ⟨_, hb, h2⟩ | ⟨_, h3⟩ <;>
    (first
      | (rw [h1]; norm_num; omega)
      | (rw [h2]; norm_num; omega)
      | (rw [h3]; norm_num; omega))

theorem fieldSlice_length (len f : Nat) (h : f ≤ 4) :
    ((toLE4 len).take f).length = f := by
  rw [List.length_take]
  simp [toLE4]
  omega

/-! ## C1 and C2 -/

/-- C1 (amended): for payloads shorter than 16777216 bytes — so that the
size-field length fits in the 2-bit flags field — decoding a
clear-encoded envelope yields the original payload, with or without a
signing key.  For longer payloads the claim fails, see the
counterexample. -/
theorem clearEncode_clearDecode_payload (keccak : List Nat → List Nat)
    (sign : List Nat → List Nat → List Nat) (getPublicKey : List Nat → List Nat)
    (recover : List Nat → List Nat → Nat → Option (List Nat))
    (pad payload : List Nat) (sigPrivKey : Option (List Nat))
    (hlen : payload.length < 16777216)
    (hvalid : validateDataIntegrity pad
      (paddingSizeOf payload.length sigPrivKey.isSome) = true) :
    ∃ env s d, clearEncode keccak sign getPublicKey pad payload sigPrivKey = some (env, s) ∧
      clearDecode keccak recover env = Except.ok (some d) ∧ d.payload = payload := by
  have hf1 := computeSize_pos payload.length
  have hf3 := computeSize_le_three payload.length hlen
  have hflen := fieldSlice_length payload.length
    (computeSizeOfPayloadSizeField payload.length) (by omega)
  have hsize := toInt32LE_sizeField payload.length
    (computeSizeOfPayloadSizeField payload.length) hf1 hf3
    (len_lt_pow_computeSize payload.length hlen)
  have hmask := flag_and_mask (computeSizeOfPayloadSizeField payload.length) hf3
  cases sigPrivKey with
  | none =>
    simp only [Option.isSome_none] at hvalid
    refine ⟨envelopeUnsigned payload pad, none, ⟨payload, none⟩,
      clearEncode_unsigned_eq keccak sign getPublicKey pad payload hvalid, ?_, rfl⟩
    exact (clearDecode_structured keccak recover
      (computeSizeOfPayloadSizeField payload.length)
      (computeSizeOfPayloadSizeField payload.length)
      ((toLE4 payload.length).take (computeSizeOfPayloadSizeField payload.length))
      payload pad (envelopeUnsigned payload pad) rfl hmask.1 hf1 hf3 hflen hsize).1
      (by
        rw [hmask.2.2.1]
        decide)
  | some priv =>
    simp only [Option.isSome_some] at hvalid
    have hpadlen : pad.length = paddingSizeOf payload.length true :=
      ((validateDataIntegrity_eq_true_iff pad _).mp hvalid).1
    have hP : paddingSizeOf payload.length true =
        256 - (1 + computeSizeOfPayloadSizeField payload.length + payload.length + 65) % 256 :=
      rfl
    set sigBytes := sign (keccak (envelopeSigned payload pad)) priv with hsigBytes
    have hmsg : envelopeSigned payload pad ++ sigBytes =
        (computeSizeOfPayloadSizeField payload.length ||| IsSignedMask) ::
          (((toLE4 payload.length).take (computeSizeOfPayloadSizeField payload.length)) ++
            (payload ++ (pad ++ sigBytes))) := by
      simp [envelopeSigned, List.cons_append, List.append_assoc]
    have h65 : 65 ≤ (envelopeSigned payload pad ++ sigBytes).length := by
      rw [hmsg]
      simp only [List.length_cons, List.length_append]
      rw [hflen, hpadlen, hP]
      omega
    have hdec := (clearDecode_structured keccak recover
      (computeSizeOfPayloadSizeField payload.length ||| IsSignedMask)
      (computeSizeOfPayloadSizeField payload.length)
      ((toLE4 payload.length).take (computeSizeOfPayloadSizeField payload.length))
      payload (pad ++ sigBytes) (envelopeSigned payload pad ++ sigBytes) hmsg
      hmask.2.1 hf1 hf3 hflen hsize).2 hmask.2.2.2 h65
    exact ⟨envelopeSigned payload pad ++ sigBytes, some ⟨sigBytes, some (getPublicKey priv)⟩,
      _, clearEncode_signed_eq keccak sign getPublicKey pad payload priv hvalid, hdec, rfl⟩

theorem computeSize_le_four (len : Nat) (h : len < 4294967296) :
    computeSizeOfPayloadSizeField len ≤ 4 := by
  by_cases h1 : len < 16777216
  · have := computeSize_le_three len h1
    omega
  · unfold computeSizeOfPayloadSizeField
    rw [sizeFieldCount_of_le (by omega), sizeFieldCount_of_le (by omega),
      sizeFieldCount_of_le (by omega), sizeFieldCount_of_lt (by omega)]

theorem clearEncode_eq_none_of_invalid (keccak : List Nat → List Nat)
    (sign : List Nat → List Nat → List Nat) (getPublicKey : List Nat → List Nat)
    (pad payload : List Nat) (sigPrivKey : Option (List Nat))
    (hv : validateDataIntegrity pad (paddingSizeOf payload.length sigPrivKey.isSome) = false) :
    clearEncode keccak sign getPublicKey pad payload sigPrivKey = none := by
  simp [clearEncode, hv]

/-- C2: every envelope returned by `clearEncode` has a length that is a
positive multiple of 256 (payload lengths are below 2^32, the source's
`Uint8Array`/`setUint32` range, and the external `sign` primitive
returns 65-byte signatures). -/
theorem clearEncode_length_multiple (keccak : List Nat → List Nat)
    (sign : List Nat → List Nat → List Nat) (getPublicKey : List Nat → List Nat)
    (pad payload : List Nat) (sigPrivKey : Option (List Nat)) (env : List Nat)
    (s : Option Signature)
    (hbound : payload.length < 4294967296)
    (hsiglen : ∀ h k, (sign h k).length = 65)
    (henc : clearEncode keccak sign getPublicKey pad payload sigPrivKey = some (env, s)) :
    env.length % 256 = 0 ∧ 256 ≤ env.length := by
  have hfl : ((toLE4 payload.length).take (computeSizeOfPayloadSizeField payload.length)).length
      = computeSizeOfPayloadSizeField payload.length :=
    fieldSlice_length _ _ (computeSize_le_four _ hbound)
  cases sigPrivKey with
  | none =>
    cases hv : validateDataIntegrity pad (paddingSizeOf payload.length false) with
    | false =>
      rw [clearEncode_eq_none_of_invalid keccak sign getPublicKey pad payload none hv] at henc
      cases henc
    | true =>
      have hpadlen : pad.length = paddingSizeOf payload.length false :=
        ((validateDataIntegrity_eq_true_iff pad _).mp hv).1
      have hP : paddingSizeOf payload.length false =
          256 - (1 + computeSizeOfPayloadSizeField payload.length + payload.length + 0) % 256 :=
        rfl
      rw [clearEncode_unsigned_eq keccak sign getPublicKey pad payload hv] at henc
      simp only [Option.some.injEq, Prod.mk.injEq] at henc
      obtain ⟨henv, -⟩ := henc
      rw [← henv]
      simp only [envelopeUnsigned, List.length_cons, List.length_append, hfl]
      rw [hpadlen, hP]
      omega
  | some priv =>
    cases hv : validateDataIntegrity pad (paddingSizeOf payload.length true) with
    | false =>
      rw [clearEncode_eq_none_of_invalid keccak sign getPublicKey pad payload (some priv) hv]
        at henc
      cases henc
    | true =>
      have hpadlen : pad.length = paddingSizeOf payload.length true :=
        ((validateDataIntegrity_eq_true_iff pad _).mp hv).1
      have hP : paddingSizeOf payload.length true =
          256 - (1 + computeSizeOfPayloadSizeField payload.length + payload.length + 65) % 256 :=
        rfl
      rw [clearEncode_signed_eq keccak sign getPublicKey pad payload priv hv] at henc
      simp only [Option.some.injEq, Prod.mk.injEq] at henc
      obtain ⟨henv, -⟩ := henc
      rw [← henv]
      simp only [envelopeSigned, List.length_append, List.length_cons, hfl]
      rw [hsiglen, hpadlen, hP]
      omega

/-! ## C4: signed envelopes and recovery -/

/-- C4 (amended): for payloads shorter than 16777216 bytes, a signed
envelope has flag bit 2 set and ends with the 65-byte signature;
`clearDecode` hashes all bytes but the last 65 and hands digest and
signature to the recovery primitive, and when the crypto primitives are
mutually consistent the recovered key equals the uncompressed key
derived from the private key, which is also the `publicKey` field
`clearEncode` returned.  For longer payloads `clearDecode` bails out
before any recovery, see the counterexample. -/
theorem clearEncode_signed_recovery (keccak : List Nat → List Nat)
    (sign : List Nat → List Nat → List Nat) (getPublicKey : List Nat → List Nat)
    (recover : List Nat → List Nat → Nat → Option (List Nat))
    (pad payload priv : List Nat)
    (hlen : payload.length < 16777216)
    (hvalid : validateDataIntegrity pad (paddingSizeOf payload.length true) = true)
    (hsiglen : ∀ h, (sign h priv).length = 65)
    (hrec : ∀ h, recover h ((sign h priv).take 64) (((sign h priv).drop 64).headD 0 % 256) =
      some (getPublicKey priv)) :
    ∃ env sigBytes,
      clearEncode keccak sign getPublicKey pad payload (some priv) =
        some (env, some ⟨sigBytes, some (getPublicKey priv)⟩) ∧
      env.headD 0 &&& IsSignedMask = IsSignedMask ∧
      sigBytes.length = 65 ∧
      env.drop (env.length - 65) = sigBytes ∧
      sigBytes = sign (keccak (env.take (env.length - 65))) priv ∧
      clearDecode keccak recover env =
        Except.ok (some ⟨payload, some ⟨sigBytes, some (getPublicKey priv)⟩⟩) := by
  have hf1 := computeSize_pos payload.length
  have hf3 := computeSize_le_three payload.length hlen
  have hflen := fieldSlice_length payload.length
    (computeSizeOfPayloadSizeField payload.length) (by omega)
  have hsize := toInt32LE_sizeField payload.length
    (computeSizeOfPayloadSizeField payload.length) hf1 hf3
    (len_lt_pow_computeSize payload.length hlen)
  have hmask := flag_and_mask (computeSizeOfPayloadSizeField payload.length) hf3
  set sigBytes := sign (keccak (envelopeSigned payload pad)) priv with hsigBytes
  set env := envelopeSigned payload pad ++ sigBytes with henvdef
  have hmsg : env = (computeSizeOfPayloadSizeField payload.length ||| IsSignedMask) ::
      (((toLE4 payload.length).take (computeSizeOfPayloadSizeField payload.length)) ++
        (payload ++ (pad ++ sigBytes))) := by
    simp [henvdef, envelopeSigned, List.cons_append, List.append_assoc]
  have hsplit : (envelopeSigned payload pad).length = env.length - 65 := by
    rw [henvdef, List.length_append, hsigBytes, hsiglen]
    omega
  have hdropenv : env.drop (env.length - 65) = sigBytes := by
    rw [henvdef]
    exact List.drop_left' hsplit
  have htakeenv : env.take (env.length - 65) = envelopeSigned payload pad := by
    rw [henvdef]
    exact List.take_left' hsplit
  have h65 : 65 ≤ env.length := by
    rw [henvdef, List.length_append, hsigBytes, hsiglen]
    omega
  have hdec := (clearDecode_structured keccak recover
    (computeSizeOfPayloadSizeField payload.length ||| IsSignedMask)
    (computeSizeOfPayloadSizeField payload.length)
    ((toLE4 payload.length).take (computeSizeOfPayloadSizeField payload.length))
    payload (pad ++ sigBytes) env hmsg
    hmask.2.1 hf1 hf3 hflen hsize).2 hmask.2.2.2 h65
  have hrec' := hrec (keccak (envelopeSigned payload pad))
  rw [← hsigBytes] at hrec'
  rw [hdropenv, htakeenv, hrec'] at hdec
  refine ⟨env, sigBytes, clearEncode_signed_eq keccak sign getPublicKey pad payload priv hvalid,
    ?_, by rw [hsigBytes, hsiglen], hdropenv, by rw [htakeenv], hdec⟩
  rw [hmsg]
  simpa using hmask.2.2.2

/-! ## C7: non-fatal recovery failure -/

/-- C7: when the recovery primitive fails (for instance because the
recovery byte is out of range or the recovered point is at infinity),
`clearDecode` still succeeds on a signed message of at least 65 bytes
and returns the payload with an absent public key. -/
theorem recovery_failure_nonfatal (keccak : List Nat → List Nat)
    (recover : List Nat → List Nat → Nat → Option (List Nat))
    (b : Nat) (rest : List Nat)
    (hb3 : b &&& FlagMask ≠ 0) (hb4 : b &&& IsSignedMask = IsSignedMask)
    (hlen : 65 ≤ (b :: rest).length)
    (hrecfail : ∀ h s r, recover h s r = none) :
    ∃ p sigBytes, clearDecode keccak recover (b :: rest) =
      Except.ok (some ⟨p, some ⟨sigBytes, none⟩⟩) := by
  simp only [clearDecode]
  rw [if_neg hb3, if_pos hb4, getSignature_eq _ hlen]
  have hdrop : (((b :: rest).drop ((b :: rest).length - 65)).drop 64).length = 1 := by
    rw [List.length_drop, List.length_drop]
    omega
  obtain ⟨x, hx⟩ := List.length_eq_one.mp hdrop
  rw [hx]
  simp only [hrecfail]
  exact ⟨_, _, rfl⟩

/-! ## C6: when clearDecode reports a malformed envelope -/

/-- On a message shorter than 65 bytes, the clamped `getSignature`
slice has at most 64 bytes, so `slice(64)` of it is empty. -/
theorem getSignature_short_drop (message : List Nat) (h : message.length < 65) :
    (getSignature message).drop 64 = [] := by
  apply List.drop_eq_nil_of_le
  simp only [getSignature, jsSlice, jsIdx, SignatureLength]
  rw [List.length_drop, List.length_take]
  split_ifs <;> omega

/-- C6 (amended): on a nonempty message, `clearDecode` returns `None`
exactly when the low two bits of the flags byte are zero; it checks
neither that the declared payload length fits in the envelope nor that
the total length is a multiple of 256.  On any other nonempty message it
returns a (possibly truncated) payload — unsigned, or signed with at
least 65 bytes — while a signed message shorter than 65 bytes throws
reading the recovery byte instead of reporting a malformed envelope. -/
theorem clearDecode_none_iff_flags (keccak : List Nat → List Nat)
    (recover : List Nat → List Nat → Nat → Option (List Nat))
    (b : Nat) (rest : List Nat) :
    (clearDecode keccak recover (b :: rest) = Except.ok none ↔ b &&& FlagMask = 0) ∧
    (b &&& FlagMask ≠ 0 → b &&& IsSignedMask ≠ IsSignedMask →
      ∃ p, clearDecode keccak recover (b :: rest) = Except.ok (some ⟨p, none⟩)) ∧
    (b &&& FlagMask ≠ 0 → b &&& IsSignedMask = IsSignedMask → 65 ≤ (b :: rest).length →
      ∃ p s, clearDecode keccak recover (b :: rest) = Except.ok (some ⟨p, some s⟩)) ∧
    (b &&& FlagMask ≠ 0 → b &&& IsSignedMask = IsSignedMask → (b :: rest).length < 65 →
      clearDecode keccak recover (b :: rest) = Except.error ()) := by
  refine ⟨⟨?_, ?_⟩, ?_, ?_, ?_⟩
  · intro h
    by_contra hne
    simp only [clearDecode] at h
    rw [if_neg hne] at h
    by_cases hs : b &&& IsSignedMask = IsSignedMask
    · rw [if_pos hs] at h
      cases hm : (getSignature (b :: rest)).drop 64 with
      | nil => rw [hm] at h; simp at h
      | cons r tl => rw [hm] at h; simp at h
    · rw [if_neg hs] at h
      simp at h
  · intro h0
    simp only [clearDecode]
    rw [if_pos h0]
  · intro hne hns
    simp only [clearDecode]
    rw [if_neg hne, if_neg hns]
    exact ⟨_, rfl⟩
  · intro hne hsg hlen
    simp only [clearDecode]
    rw [if_neg hne, if_pos hsg, getSignature_eq _ hlen]
    have hdrop : (((b :: rest).drop ((b :: rest).length - 65)).drop 64).length = 1 := by
      rw [List.length_drop, List.length_drop]
      omega
    obtain ⟨x, hx⟩ := List.length_eq_one.mp hdrop
    rw [hx]
    exact ⟨_, _, rfl⟩
  · intro hne hsg hshort
    simp only [clearDecode]
    rw [if_neg hne, if_pos hsg, getSignature_short_drop _ hshort]

/-! ## Concrete oracles and inputs -/

/-- Toy digest oracle used for concrete instances. -/
def keccakO : List Nat → List Nat := fun _ => List.replicate 32 7

/-- Toy signing oracle producing a fixed 65-byte signature. -/
def signO : List Nat → List Nat → List Nat := fun _ _ => List.replicate 64 3 ++ [1]

/-- Toy public-key derivation oracle. -/
def getPubO : List Nat → List Nat := fun k => 4 :: k

/-- Recovery oracle that always fails. -/
def recoverO : List Nat → List Nat → Nat → Option (List Nat) := fun _ _ _ => none

/-- Recovery oracle consistent with `signO` and `getPubO` for the key
`[42]`. -/
def recoverW : List Nat → List Nat → Nat → Option (List Nat) := fun _ _ _ => some (getPubO [42])

theorem computeSizeOfPayloadSizeField_def (n : Nat) :
    computeSizeOfPayloadSizeField n = 1 + sizeFieldCount n := rfl

theorem computeSize_2pow24 : computeSizeOfPayloadSizeField 16777216 = 4 := by
  rw [computeSizeOfPayloadSizeField_def, sizeFieldCount_of_le (by norm_num),
    sizeFieldCount_of_le (by norm_num), sizeFieldCount_of_le (by norm_num),
    sizeFieldCount_of_lt (by norm_num)]

/-! ## Counterexample for C1 -/

theorem paddingSizeOf_def (n : Nat) (s : Bool) :
    paddingSizeOf n s = PaddingTarget -
      (FlagsLength + computeSizeOfPayloadSizeField n + n +
        (if s then SignatureLength else 0)) % PaddingTarget := rfl

theorem envelopeUnsigned_def (payload pad : List Nat) :
    envelopeUnsigned payload pad = computeSizeOfPayloadSizeField payload.length ::
      ((toLE4 payload.length).take (computeSizeOfPayloadSizeField payload.length) ++
        (payload ++ pad)) := rfl

theorem envelopeSigned_def (payload pad : List Nat) :
    envelopeSigned payload pad = (computeSizeOfPayloadSizeField payload.length |||
        IsSignedMask) ::
      ((toLE4 payload.length).take (computeSizeOfPayloadSizeField payload.length) ++
        (payload ++ pad)) := rfl

def padC1 : List Nat := 1 :: List.replicate 250 0

def bigPayloadC1 : List Nat := List.replicate 16777216 0

def bigEnvC1 : List Nat := 4 :: ([0, 0, 0, 1] ++ (bigPayloadC1 ++ padC1))

theorem bigPayloadC1_length : bigPayloadC1.length = 16777216 :=
  List.length_replicate 16777216 0

theorem clearDecode_flags_zero (keccak : List Nat → List Nat)
    (recover : List Nat → List Nat → Nat → Option (List Nat)) (b : Nat) (rest : List Nat)
    (h : b &&& FlagMask = 0) :
    clearDecode keccak recover (b :: rest) = Except.ok none := by
  simp only [clearDecode]
  rw [if_pos h]

theorem paddingSizeOf_bigC1 : paddingSizeOf bigPayloadC1.length false = 251 := by
  rw [paddingSizeOf_def, bigPayloadC1_length, computeSize_2pow24]
  decide

set_option maxRecDepth 8000 in
theorem validate_padC1 :
    validateDataIntegrity padC1 (paddingSizeOf bigPayloadC1.length false) = true := by
  rw [paddingSizeOf_bigC1]
  simp [validateDataIntegrity, padC1]

/-- C1 counterexample: for the 16777216-byte payload, the size-field
length 4 is ORed into the 2-bit flags field, so the flags byte is 4,
its low two bits are 0, and `clearDecode` returns `None` instead of the
payload. -/
theorem clearEncode_bigPayload_decodes_none :
    clearEncode keccakO signO getPubO padC1 bigPayloadC1 none = some (bigEnvC1, none) ∧
    clearDecode keccakO recoverO bigEnvC1 = Except.ok none := by
  have henv : envelopeUnsigned bigPayloadC1 padC1 = bigEnvC1 := by
    rw [envelopeUnsigned_def, bigPayloadC1_length, computeSize_2pow24,
      show (toLE4 16777216).take 4 = [0, 0, 0, 1] from rfl, bigEnvC1]
  constructor
  · exact (clearEncode_unsigned_eq keccakO signO getPubO padC1 bigPayloadC1
      validate_padC1).trans (by rw [henv])
  · exact clearDecode_flags_zero keccakO recoverO 4
      ([0, 0, 0, 1] ++ (bigPayloadC1 ++ padC1)) (by decide)

/-! ## Counterexample for C4 -/

def padC4 : List Nat := 1 :: List.replicate 185 0

def bigPayloadC4 : List Nat := List.replicate 16777216 1

def sigO65 : List Nat := List.replicate 64 3 ++ [1]

def bigEnvC4 : List Nat := (4 :: ([0, 0, 0, 1] ++ (bigPayloadC4 ++ padC4))) ++ sigO65

theorem bigPayloadC4_length : bigPayloadC4.length = 16777216 :=
  List.length_replicate 16777216 1

theorem paddingSizeOf_bigC4 : paddingSizeOf bigPayloadC4.length true = 186 := by
  rw [paddingSizeOf_def, bigPayloadC4_length, computeSize_2pow24]
  decide

set_option maxRecDepth 8000 in
theorem validate_padC4 :
    validateDataIntegrity padC4 (paddingSizeOf bigPayloadC4.length true) = true := by
  rw [paddingSizeOf_bigC4]
  simp [validateDataIntegrity, padC4]

/-- C4 counterexample: for a signed 16777216-byte payload the envelope
does carry flag bit 2 and a 65-byte trailing signature, but the 2-bit
flags field holds 4 mod 4 = 0, so `clearDecode` returns `None` and no
public key is ever recovered — even with a recovery oracle that always
succeeds. -/
theorem clearEncode_signed_bigPayload_no_recovery :
    clearEncode keccakO signO getPubO padC4 bigPayloadC4 (some [42]) =
      some (bigEnvC4, some ⟨sigO65, some (getPubO [42])⟩) ∧
    clearDecode keccakO recoverW bigEnvC4 = Except.ok none := by
  have henvS : envelopeSigned bigPayloadC4 padC4 =
      4 :: ([0, 0, 0, 1] ++ (bigPayloadC4 ++ padC4)) := by
    rw [envelopeSigned_def, bigPayloadC4_length, computeSize_2pow24,
      show (toLE4 16777216).take 4 = [0, 0, 0, 1] from rfl,
      show (4 ||| IsSignedMask) = 4 from rfl]
  have hsig : signO (keccakO (envelopeSigned bigPayloadC4 padC4)) [42] = sigO65 := rfl
  constructor
  · refine (clearEncode_signed_eq keccakO signO getPubO padC4 bigPayloadC4 [42]
      validate_padC4).trans ?_
    rw [hsig, henvS, bigEnvC4]
  · have hcons : bigEnvC4 = 4 :: (([0, 0, 0, 1] ++ (bigPayloadC4 ++ padC4)) ++ sigO65) := by
      rw [bigEnvC4, List.cons_append]
    exact (congrArg (clearDecode keccakO recoverW) hcons).trans
      (clearDecode_flags_zero keccakO recoverW 4
        (([0, 0, 0, 1] ++ (bigPayloadC4 ++ padC4)) ++ sigO65) (by decide))

/-! ## Counterexample for C6 -/

/-- C6 counterexample: the two-byte message `[1, 200]` declares a
200-byte payload inside a 2-byte envelope whose length is not a
multiple of 256, yet `clearDecode` does not report it as malformed: it
returns the (empty) truncated payload. -/
theorem clearDecode_truncates_oversized :
    getPayloadSize [1, 200] 1 = (200 : Int) ∧
    ([1, 200] : List Nat).length % 256 ≠ 0 ∧
    clearDecode keccakO recoverO [1, 200] = Except.ok (some ⟨[], none⟩) := by
  refine ⟨by decide, by decide, ?_⟩
  rfl

/-! ## Witnesses for C1, C2, C4, C6, C7 -/

def padW : List Nat := 9 :: List.replicate 250 0

def padWS : List Nat := 9 :: List.replicate 185 0

theorem computeSize_three : computeSizeOfPayloadSizeField 3 = 1 := by
  rw [computeSizeOfPayloadSizeField_def, sizeFieldCount_of_lt (by norm_num)]

theorem paddingSizeOf_W : paddingSizeOf ([5, 6, 7] : List Nat).length false = 251 := by
  rw [paddingSizeOf_def, show ([5, 6, 7] : List Nat).length = 3 from rfl, computeSize_three]
  decide

theorem paddingSizeOf_WS : paddingSizeOf ([5, 6, 7] : List Nat).length true = 186 := by
  rw [paddingSizeOf_def, show ([5, 6, 7] : List Nat).length = 3 from rfl, computeSize_three]
  decide

set_option maxRecDepth 8000 in
theorem validate_padW :
    validateDataIntegrity padW (paddingSizeOf ([5, 6, 7] : List Nat).length false) = true := by
  rw [paddingSizeOf_W]
  decide

set_option maxRecDepth 8000 in
theorem validate_padWS :
    validateDataIntegrity padWS (paddingSizeOf ([5, 6, 7] : List Nat).length true) = true := by
  rw [paddingSizeOf_WS]
  decide

set_option maxRecDepth 8000 in
/-- Witness for C1 at payload `[5, 6, 7]`, unsigned. -/
theorem clearEncode_clearDecode_payload_witness :
    ([5, 6, 7] : List Nat).length < 16777216 ∧
    validateDataIntegrity padW
      (paddingSizeOf ([5, 6, 7] : List Nat).length (none : Option (List Nat)).isSome) = true ∧
    (∃ env s d, clearEncode keccakO signO getPubO padW [5, 6, 7] none = some (env, s) ∧
      clearDecode keccakO recoverO env = Except.ok (some d) ∧ d.payload = [5, 6, 7]) :=
  ⟨by norm_num, validate_padW, clearEncode_clearDecode_payload keccakO signO getPubO recoverO
    padW [5, 6, 7] none (by norm_num) validate_padW⟩

set_option maxRecDepth 8000 in
/-- Witness for C2 at payload `[5, 6, 7]`, unsigned. -/
theorem clearEncode_length_multiple_witness :
    ([5, 6, 7] : List Nat).length < 4294967296 ∧
    (∀ h k, (signO h k).length = 65) ∧
    clearEncode keccakO signO getPubO padW [5, 6, 7] none =
      some (envelopeUnsigned [5, 6, 7] padW, none) ∧
    ((envelopeUnsigned [5, 6, 7] padW).length % 256 = 0 ∧
      256 ≤ (envelopeUnsigned [5, 6, 7] padW).length) :=
  ⟨by norm_num, fun _ _ => rfl,
    clearEncode_unsigned_eq keccakO signO getPubO padW [5, 6, 7] validate_padW,
    clearEncode_length_multiple keccakO signO getPubO padW [5, 6, 7] none _ _ (by norm_num)
      (fun _ _ => rfl)
      (clearEncode_unsigned_eq keccakO signO getPubO padW [5, 6, 7] validate_padW)⟩

set_option maxRecDepth 8000 in
/-- Witness for C4 at payload `[5, 6, 7]` signed with key `[42]`. -/
theorem clearEncode_signed_recovery_witness :
    ([5, 6, 7] : List Nat).length < 16777216 ∧
    validateDataIntegrity padWS (paddingSizeOf ([5, 6, 7] : List Nat).length true) = true ∧
    (∀ h, (signO h [42]).length = 65) ∧
    (∀ h, recoverW h ((signO h [42]).take 64) (((signO h [42]).drop 64).headD 0 % 256) =
      some (getPubO [42])) ∧
    (∃ env sigBytes, clearEncode keccakO signO getPubO padWS [5, 6, 7] (some [42]) =
        some (env, some ⟨sigBytes, some (getPubO [42])⟩) ∧
      env.headD 0 &&& IsSignedMask = IsSignedMask ∧
      sigBytes.length = 65 ∧
      env.drop (env.length - 65) = sigBytes ∧
      sigBytes = signO (keccakO (env.take (env.length - 65))) [42] ∧
      clearDecode keccakO recoverW env =
        Except.ok (some ⟨[5, 6, 7], some ⟨sigBytes, some (getPubO [42])⟩⟩)) :=
  ⟨by norm_num, validate_padWS, fun _ => rfl, fun _ => rfl,
    clearEncode_signed_recovery keccakO signO getPubO recoverW padWS [5, 6, 7] [42]
      (by norm_num) validate_padWS (fun _ => rfl) (fun _ => rfl)⟩

/-- Witness for C6 (amended) at the message `[1, 200]`. -/
theorem clearDecode_none_iff_flags_witness :
    (clearDecode keccakO recoverO (1 :: [200]) = Except.ok none ↔ (1 : Nat) &&& FlagMask = 0) ∧
    ((1 : Nat) &&& FlagMask ≠ 0 → (1 : Nat) &&& IsSignedMask ≠ IsSignedMask →
      ∃ p, clearDecode keccakO recoverO (1 :: [200]) = Except.ok (some ⟨p, none⟩)) ∧
    ((1 : Nat) &&& FlagMask ≠ 0 → (1 : Nat) &&& IsSignedMask = IsSignedMask →
      65 ≤ ((1 : Nat) :: [200]).length →
      ∃ p s, clearDecode keccakO recoverO (1 :: [200]) = Except.ok (some ⟨p, some s⟩)) ∧
    ((1 : Nat) &&& FlagMask ≠ 0 → (1 : Nat) &&& IsSignedMask = IsSignedMask →
      ((1 : Nat) :: [200]).length < 65 →
      clearDecode keccakO recoverO (1 :: [200]) = Except.error ()) :=
  clearDecode_none_iff_flags keccakO recoverO 1 [200]

set_option maxRecDepth 8000 in
/-- Witness for C7 at a 65-byte signed message whose recovery fails. -/
theorem recovery_failure_nonfatal_witness :
    ((5 : Nat) &&& FlagMask ≠ 0) ∧ ((5 : Nat) &&& IsSignedMask = IsSignedMask) ∧
    65 ≤ ((5 : Nat) :: List.replicate 64 0).length ∧
    (∀ h s r, recoverO h s r = none) ∧
    (∃ p sigBytes, clearDecode keccakO recoverO (5 :: List.replicate 64 0) =
      Except.ok (some ⟨p, some ⟨sigBytes, none⟩⟩)) :=
  ⟨by decide, by decide, by decide, fun _ _ _ => rfl,
    recovery_failure_nonfatal keccakO recoverO 5 (List.replicate 64 0) (by decide) (by decide)
      (by decide) (fun _ _ _ => rfl)⟩

end Waku
